import Mathlib

/-!
A shallow embedding of `mathemage/mage/image.py` (the `Image` and
`LayeredImage` classes) together with proofs about the behaviour of its
indexing, construction, negation, AND, and drawable-application code.

Modelling conventions:
* numpy `uint8` arrays of shape `(height, width, 4)` are modelled as a
  structure carrying the two shape numbers and a total function
  `pix : Nat → Nat → Nat → Nat` giving the stored byte at storage
  coordinates `(y, x, channel)`; stored values are kept reduced mod 256
  at every write, mirroring the `uint8` dtype.
* Python floats are modelled as rationals (`ℚ`); the code only ever
  compares and subtracts them, which ℚ reflects exactly for the dyadic
  values floats denote.
* Python exceptions become an `Err` inductive returned through `Except`.
* Python's `sorted` is a stable sort; it is embedded as
  `List.insertionSort`, which is also stable, so both produce the very
  same list for the lexicographic order used by the code.
-/

namespace Mage

/-- The Python exception kinds the module can raise. -/
inductive Err where
  | valueError
  | typeError
  | runtimeError
  | indexError
deriving DecidableEq

/-- A slice bound as it appears in the source: a Python `int` or `float`
(`None` is represented by `Option` around this type). -/
inductive Bnd where
  | bint (n : Int)
  | bfloat (q : ℚ)
deriving DecidableEq

/-- The numeric value of a bound (used by the nearest-pixel snap, which
computes `abs(x - bound)`). -/
def bval : Bnd → ℚ
  | .bint n => (n : ℚ)
  | .bfloat q => q

/-- One component of an index tuple: an integer, a float, or a slice
`start:stop` whose bounds are `None`, ints or floats.  The code never
inspects a slice step (classification looks only at `.start`/`.stop`,
and the mathematical path rebuilds slices with step `None`), so steps
are not carried. -/
inductive IdxC where
  | int (n : Int)
  | float (q : ℚ)
  | slice (start stop : Option Bnd)
deriving DecidableEq

/-- An index as received by `__getitem__`/`__setitem__`: either a bare
scalar component or a tuple of components. -/
inductive PyIndex where
  | scalar (c : IdxC)
  | tuple (cs : List IdxC)
deriving DecidableEq

/-- A domain function: `(width, height) -> (XS, YS)`, two grids of
mathematical coordinates. -/
abbrev DomainFn := Nat → Nat → (List (List ℚ)) × (List (List ℚ))

/-- The `Image` class: a `(height, width, 4)` uint8 array plus the
optional `_domain` attribute.  `pix y x c` is the byte at storage index
`(y, x, c)`; values at out-of-shape indices are irrelevant junk. -/
structure MImage where
  height : Nat
  width : Nat
  pix : Nat → Nat → Nat → Nat
  domain : Option DomainFn

/-- `Image._flip_index`: a bare scalar `i` becomes `(slice(None), i)`;
a tuple has its first two entries swapped.  Tuples with fewer than two
entries make the Python code fail with an `IndexError` on `index[1]`,
modelled by `none`. -/
def flipIndex : PyIndex → Option (List IdxC)
  | .scalar c => some [.slice none none, c]
  | .tuple (a :: b :: rest) => some (b :: a :: rest)
  | .tuple _ => none

/-- Whether an optional bound is a float. -/
def obIsFloat : Option Bnd → Bool
  | some (.bfloat _) => true
  | _ => false

/-- Classification of one component by `Image._is_pixel_addr`: ints are
pixel components, floats are mathematical, slices are mathematical
exactly when their start or stop is a float. -/
def compIsPixel : IdxC → Bool
  | .int _ => true
  | .float _ => false
  | .slice s t => !(obIsFloat s || obIsFloat t)

/-- `Image._is_pixel_addr`: the whole index is a pixel address iff every
component classifies as a pixel component. -/
def isPixelAddr (cs : List IdxC) : Bool := cs.all compIsPixel

/-- Resolve one integer index against an axis of size `n` the way Python
and numpy do: negative indices count from the end. -/
def clampIdx (n : Nat) (i : Int) : Nat :=
  (max (if i < 0 then i + n else i) 0).toNat.min n

/-- The indices selected on an axis of size `n` by a step-`None` slice
with the given integer bounds (Python `slice.indices` semantics). -/
def sliceIdxs (n : Nat) (s t : Option Int) : List Nat :=
  let lo := match s with | none => 0 | some i => clampIdx n i
  let hi := match t with | none => n | some i => clampIdx n i
  List.range' lo (hi - lo)

/-- The selection an index component makes on one array axis: a single
position (an integer component, which drops the axis) or a list of
positions (a slice, which keeps it). -/
inductive Sel where
  | one (i : Nat)
  | many (l : List Nat)

/-- The integer value of a slice bound, when it is one. -/
def obInt : Option Bnd → Option Int
  | some (.bint n) => some n
  | _ => none

/-- numpy basic indexing on one axis of size `size`.  Integers are
wrapped if negative and bounds-checked (`IndexError` when outside);
slices are clamped and never fail; float components or float slice
bounds are rejected by numpy (these cases are unreachable from the
pixel path, which only receives classified pixel components or slices
rebuilt with integer bounds). -/
def intWrap (size : Nat) (i : Int) : Int := if i < 0 then i + size else i

def axisSel (size : Nat) : IdxC → Except Err Sel
  | .int i =>
    if 0 ≤ intWrap size i ∧ intWrap size i < (size : Int) then
      .ok (.one (intWrap size i).toNat)
    else .error .indexError
  | .float _ => .error .indexError
  | .slice s t =>
    if obIsFloat s || obIsFloat t then .error .typeError
    else .ok (.many (sliceIdxs size (obInt s) (obInt t)))

/-- What a pixel-space read can return: a 3-d result is wrapped as a new
`Image` (`Image.fromarray`), lower-dimensional results are returned as
raw arrays/scalars. -/
inductive GetResult where
  | img (im : MImage)
  | mat (m : List (List Nat))
  | vec (v : List Nat)
  | scalar (n : Nat)

/-- `Image._get_by_pixels`: index `self.pixels` (shape `(h, w, 4)`) with
the translated tuple, padding missing trailing axes with full slices;
a 3-d result goes through `Image.fromarray`, whose constructor insists
on a last dimension of exactly 4 (`ValueError` otherwise) and attaches
no domain. -/
def pixelGet (im : MImage) (cs : List IdxC) : Except Err GetResult :=
  if cs.length > 3 then .error .indexError else
  match axisSel im.height (cs.getD 0 (.slice none none)),
        axisSel im.width (cs.getD 1 (.slice none none)),
        axisSel 4 (cs.getD 2 (.slice none none)) with
  | .error e, _, _ => .error e
  | .ok _, .error e, _ => .error e
  | .ok _, .ok _, .error e => .error e
  | .ok (.many l0), .ok (.many l1), .ok (.many l2) =>
    if l2.length = 4 then
      .ok (.img ⟨l0.length, l1.length,
        fun y x c => im.pix (l0.getD y 0) (l1.getD x 0) (l2.getD c 0), none⟩)
    else .error .valueError
  | .ok (.one a), .ok (.many l1), .ok (.many l2) =>
    .ok (.mat (l1.map fun x => l2.map fun c => im.pix a x c))
  | .ok (.many l0), .ok (.one b), .ok (.many l2) =>
    .ok (.mat (l0.map fun y => l2.map fun c => im.pix y b c))
  | .ok (.many l0), .ok (.many l1), .ok (.one c) =>
    .ok (.mat (l0.map fun y => l1.map fun x => im.pix y x c))
  | .ok (.one a), .ok (.one b), .ok (.many l2) =>
    .ok (.vec (l2.map fun c => im.pix a b c))
  | .ok (.one a), .ok (.many l1), .ok (.one c) =>
    .ok (.vec (l1.map fun x => im.pix a x c))
  | .ok (.many l0), .ok (.one b), .ok (.one c) =>
    .ok (.vec (l0.map fun y => im.pix y b c))
  | .ok (.one a), .ok (.one b), .ok (.one c) =>
    .ok (.scalar (im.pix a b c))

/-- Exact rational subtraction written with the kernel-reducible `Rat`
primitives, so that the snapping pipeline evaluates on concrete inputs;
`qsub_eq` identifies it with ordinary subtraction. -/
def qsub (a b : ℚ) : ℚ :=
  mkRat (a.num * b.den - b.num * a.den) (a.den * b.den)

/-- Python's `abs` on a rational, again via reducible primitives;
`qabs_eq` identifies it with `|·|`. -/
def qabs (a : ℚ) : ℚ := if a.num < 0 then Rat.neg a else a

/-- The lexicographic order Python uses when sorting the
`(abs(coord - bound), pixel_index)` pairs built by the mathematical
read: compare distances first, indices second. -/
def pairR : (ℚ × Nat) → (ℚ × Nat) → Prop :=
  fun p q => p.1 < q.1 ∨ (p.1 = q.1 ∧ p.2 ≤ q.2)

instance : DecidableRel pairR := fun p q =>
  inferInstanceAs (Decidable (p.1 < q.1 ∨ (p.1 = q.1 ∧ p.2 ≤ q.2)))

/-- Step 2 of the mathematical read for one bound: build the pairs
`(abs(x - bound), i)` over `enumerate(vals)`, sort them ascending, and
take the pixel index of the first pair; `none` when the value list is
empty (Python would fail on `[0]`). -/
def snap (vals : List ℚ) (b : ℚ) : Option Nat :=
  (((vals.enum.map (fun p => (qabs (qsub p.2 b), p.1))).insertionSort pairR).head?).map
    Prod.snd

/-- Snapping of one optional slice bound: `None` stays `None`
(`[(None, None)]` in the source), a present bound is snapped to a pixel
index; an empty coordinate list makes the indexing `[0]` of the sorted
list fail with `IndexError`. -/
def snapOB (vals : List ℚ) : Option Bnd → Except Err (Option Bnd)
  | none => .ok none
  | some b =>
    match snap vals (bval b) with
    | some i => .ok (some (.bint i))
    | none => .error .indexError

/-- The mathematical-address branch of `Image.__getitem__`, entered with
the already-swapped slices `idx[0] = y-slice` and `idx[1] = x-slice`:
evaluate the domain over the full grid, keep the first row of `XS`
(the `(xs, *_)` unpack fails with `ValueError` when `XS` is empty) and
the first column of `YS` (`[it[0] for it in YS]` fails with
`IndexError` when a row is empty), snap each present bound, and
delegate to the pixel path with `(slice(y_stop, y_start),
slice(x_start, x_stop))`. -/
def mathGet (im : MImage) (dom : DomainFn)
    (ystart ystop xstart xstop : Option Bnd) : Except Err GetResult :=
  match dom im.width im.height with
  | (xss, yss) =>
    match xss.head? with
    | none => .error .valueError
    | some xrow =>
      match yss.mapM List.head? with
      | none => .error .indexError
      | some ycol =>
        match snapOB xrow xstart with
        | .error e => .error e
        | .ok sxstart =>
          match snapOB xrow xstop with
          | .error e => .error e
          | .ok sxstop =>
            match snapOB ycol ystart with
            | .error e => .error e
            | .ok systart =>
              match snapOB ycol ystop with
              | .error e => .error e
              | .ok systop =>
                pixelGet im [.slice systop systart, .slice sxstart sxstop]

/-- `Image.__getitem__`: swap the index, take the pixel path when every
component is a pixel component; otherwise demand an attached domain
(`RuntimeError`), demand that the first two swapped components are
slices (`ValueError`), and snap. -/
def imageGetitem (im : MImage) (index : PyIndex) : Except Err GetResult :=
  match flipIndex index with
  | none => .error .indexError
  | some idx =>
    if isPixelAddr idx then pixelGet im idx
    else
      match im.domain with
      | none => .error .runtimeError
      | some dom =>
        match idx.getD 0 (.slice none none), idx.getD 1 (.slice none none) with
        | .slice ys yt, .slice xs xt => mathGet im dom ys yt xs xt
        | _, _ => .error .valueError

/-- RGB-to-RGBA widening used by `__setitem__` and `__init__`: a
3-tuple gets full opacity appended. -/
def widen (v : List Nat) : List Nat := if v.length = 3 then v ++ [255] else v

/-- `Image.__setitem__`: widen the value, swap the index, and assign in
place.  The source delegates the assignment itself to numpy; the claims
only exercise integer pixel addresses, so the embedding covers the
two-integer index form (the value, a subarray of shape `(4,)`, must
receive exactly four bytes; each is stored reduced mod 256 by the uint8
dtype). -/
def imageSetitem (im : MImage) (index : PyIndex) (value : List Nat) :
    Except Err MImage :=
  let v := widen value
  match flipIndex index with
  | none => .error .indexError
  | some cs =>
    match cs with
    | [.int a, .int b] =>
      match axisSel im.height (.int a), axisSel im.width (.int b) with
      | .ok (.one y), .ok (.one x) =>
        if v.length = 4 then
          .ok { im with pix := fun y' x' c =>
                  if y' = y ∧ x' = x ∧ c < 4 then v.getD c 0 % 256
                  else im.pix y' x' c }
        else .error .valueError
      | .error e, _ => .error e
      | _, .error e => .error e
      | _, _ => .error .indexError
    | _ => .error .indexError

/-- A raw numpy array handed to the constructor: its shape and a value
for each multi-index. -/
structure NDArr where
  shape : List Nat
  data : List Nat → Nat

/-- `Image.__init__`.  A supplied pixels array overrides everything and
must have `len(shape) == 3` and `shape[-1] == 4` (`ValueError`
otherwise).  Without one, both width and height are required
(`ValueError`); a length-3 background is widened to RGBA; `np.full`
then broadcasts the fill tuple over the last axis, which requires its
length to be 4 (or 1, the scalar-like broadcast), and casts values to
uint8. -/
def imageInit (width height : Option Nat) (domain : Option DomainFn)
    (background : List Nat) (pixels : Option NDArr) : Except Err MImage :=
  match pixels with
  | some a =>
    if a.shape.length ≠ 3 ∨ a.shape.getLast? ≠ some 4 then .error .valueError
    else .ok ⟨a.shape.getD 0 0, a.shape.getD 1 0,
              fun y x c => a.data [y, x, c], domain⟩
  | none =>
    match width, height with
    | some w, some h =>
      let bg := widen background
      if bg.length = 4 then
        .ok ⟨h, w, fun _ _ c => bg.getD c 0 % 256, domain⟩
      else if bg.length = 1 then
        .ok ⟨h, w, fun _ _ _ => bg.getD 0 0 % 256, domain⟩
      else .error .valueError
    | _, _ => .error .valueError

/-- The vectorized `lambda v: abs(v - 255)` of `Image.__neg__`.
`np.vectorize` hands the Python function each element cast from uint8
to a Python `int`, so the subtraction is exact integer arithmetic; the
declared `otypes=(np.uint8,)` casts the result back mod 256. -/
def negByte (v : Nat) : Nat := ((v : Int) - 255).natAbs % 256

/-- `Image.__neg__`: invert the color channels with `abs(v - 255)` and
re-append the alpha channel.  The source reshapes the alpha view with
`alphas.shape = (self.width, self.height, 1)` — width and height in
that order.  The alpha view of a freshly built `(h, w, 4)` array is
evenly strided, so numpy performs the reassignment as a row-major
reflow: flat position `k = i*height + j` of the new `(width, height,
1)` view holds the alpha of storage pixel `(k / width, k % width)`.
`np.append(colors, alphas, axis=2)` then demands that the non-
concatenated dimensions agree — `(height, width)` versus `(width,
height)` — which fails with a `ValueError` unless the image is square;
when it is square the reflow is the identity and the alpha channel is
carried over unchanged. -/
def imageNeg (im : MImage) : Except Err MImage :=
  let flatAlpha : Nat → Nat := fun k => im.pix (k / im.width) (k % im.width) 3
  let alphas : Nat → Nat → Nat := fun i j => flatAlpha (i * im.height + j)
  if im.height = im.width then
    .ok ⟨im.height, im.width,
      fun y x c => if c < 3 then negByte (im.pix y x c) else alphas y x,
      none⟩
  else .error .valueError

/-- The right operand of `Image.__and__`: either another `Image` or
some non-`Image` Python value. -/
inductive PyVal where
  | img (im : MImage)
  | other

/-- `Image.__and__`: `TypeError` for a non-`Image` operand, `ValueError`
when the pixel arrays' shapes differ (both arrays have a last dimension
of 4, so the shapes agree exactly when heights and widths do), and
otherwise a fresh `Image` over the elementwise uint8 sum `ax + bx`,
which wraps mod 256.  Neither operand is touched and the result has no
domain attached. -/
def imageAnd (a : MImage) (b : PyVal) : Except Err MImage :=
  match b with
  | .other => .error .typeError
  | .img bi =>
    if a.height = bi.height ∧ a.width = bi.width then
      .ok ⟨a.height, a.width,
        fun y x c => (a.pix y x c + bi.pix y x c) % 256, none⟩
    else .error .valueError

/-- The color of a drawable: either a fixed tuple or a function that is
evaluated only at the masked coordinates (`colorfunc(XS[mask],
YS[mask])`).  The function receives the grids and the mask and yields
a color per selected pixel; like any Python callable it may raise. -/
inductive ColorSpec where
  | const (c : List Nat)
  | fn (g : ((List (List ℚ)) × (List (List ℚ))) → (Nat → Nat → Bool) →
        Except Err (Nat → Nat → List Nat))

/-- The drawable contract consumed by `Image.__call__`: a domain
function and a (possibly raising) mask function, plus a color.  The
mask is the boolean pixel-grid selection `maskfunc(XS, YS)` returns. -/
structure Drawable where
  domainfunc : DomainFn
  maskfunc : ((List (List ℚ)) × (List (List ℚ))) →
    Except Err (Nat → Nat → Bool)
  colorfunc : ColorSpec

/-- The masked assignment `self.pixels[mask] = colors`: every selected
pixel's four bytes are overwritten (uint8, so mod 256), every other
pixel is untouched. -/
def applyMask (im : MImage) (mask : Nat → Nat → Bool)
    (colors : Nat → Nat → List Nat) : Nat → Nat → Nat → Nat :=
  fun y x c => if mask y x then (colors y x).getD c 0 % 256 else im.pix y x c

/-- Broadcasting of a constant color tuple into the `(k, 4)` masked
selection: a length-1 tuple fills all four channels, a length-4 tuple
is used as is. -/
def constFill (c : List Nat) : List Nat :=
  if c.length = 1 then List.replicate 4 (c.getD 0 0) else c

/-- The body of `Image.__call__` once the grid source `dfn` has been
chosen: compute the grids, the mask, the colors (a constant tuple must
broadcast into the `(k, 4)` selection, i.e. have length 4 or 1,
`ValueError` otherwise), mutate the pixels, and only then — when
`overwrite_domain` is set and the host domain was not used — store the
drawable's domain function.  Any failure leaves the image exactly as it
was, since all fallible steps precede the single mutation. -/
def colorStep (f : Drawable) (grids : (List (List ℚ)) × (List (List ℚ)))
    (mask : Nat → Nat → Bool) : Except Err (Nat → Nat → List Nat) :=
  match f.colorfunc with
  | .const c =>
    if c.length = 4 ∨ c.length = 1 then .ok (fun _ _ => constFill c)
    else .error .valueError
  | .fn g => g grids mask

/-- See `colorStep` for the color computation; `callWith` sequences the
fallible steps and performs the one mutation at the end. -/
def callWith (im : MImage) (f : Drawable) (overwrite hostdom : Bool)
    (dfn : DomainFn) : Except Err Unit × MImage :=
  let grids := dfn im.width im.height
  match f.maskfunc grids with
  | .error e => (.error e, im)
  | .ok mask =>
    match colorStep f grids mask with
    | .error e => (.error e, im)
    | .ok colors =>
      let im1 : MImage := { im with pix := applyMask im mask colors }
      if overwrite && !hostdom then
        (.ok (), { im1 with domain := some f.domainfunc })
      else (.ok (), im1)

/-- `Image.__call__(f, overwrite_domain=True, use_host_domain=False)`:
with `use_host_domain` and no attached domain, fail with a
`RuntimeError` before anything is touched; otherwise composite using
the host's or the drawable's domain function.  The returned pair is the
call's outcome together with the final state of the image. -/
def imageCall (im : MImage) (f : Drawable)
    (overwrite_domain use_host_domain : Bool) : Except Err Unit × MImage :=
  match use_host_domain, im.domain with
  | true, none => (.error .runtimeError, im)
  | true, some d => callWith im f overwrite_domain true d
  | false, _ => callWith im f overwrite_domain false f.domainfunc

/-- `LayeredImage`: the list of layers plus the cached width and height
(`None` when the caller passed none). -/
structure MLayered where
  layers : List MImage
  lwidth : Option Nat
  lheight : Option Nat

/-- `LayeredImage.__init__`: adopt a supplied list (caching the first
layer's size, an `IndexError` on an empty list) or build `num_layers`
fresh fully transparent black images of the given size via the `Image`
constructor — which is never invoked when `num_layers` is 0 and which
raises when width or height is missing. -/
def layeredInit (width height : Option Nat) (num_layers : Nat)
    (imgs : Option (List MImage)) : Except Err MLayered :=
  match imgs with
  | some l =>
    match l.head? with
    | none => .error .indexError
    | some i0 => .ok ⟨l, some i0.width, some i0.height⟩
  | none =>
    if num_layers = 0 then .ok ⟨[], width, height⟩
    else
      match imageInit width height none [0, 0, 0, 0] none with
      | .ok im => .ok ⟨List.replicate num_layers im, width, height⟩
      | .error e => .error e

/-- A key handed to `LayeredImage.__getitem__`: an integer or anything
else. -/
inductive LKey where
  | int (i : Int)
  | other

/-- What `LayeredImage.__getitem__` returns: the stored layer itself
for an integer key (Python list indexing, negative keys counting from
the end), or the placeholder string for any other key. -/
inductive LGet where
  | layer (im : MImage)
  | placeholder (s : String)

/-- Python list indexing `layers[key]`: negative keys count from the
end, out-of-range keys raise `IndexError` (here: `none`). -/
def pyListGet {α : Type} (l : List α) (i : Int) : Option α :=
  let j : Int := if i < 0 then i + l.length else i
  if h : 0 ≤ j ∧ j.toNat < l.length then some (l.get ⟨j.toNat, h.2⟩) else none

/-- `LayeredImage.__getitem__`. -/
def layeredGetitem (stack : MLayered) : LKey → Except Err LGet
  | .other => .ok (.placeholder "Other methods coming soon")
  | .int i =>
    match pyListGet stack.layers i with
    | some im => .ok (.layer im)
    | none => .error .indexError

/-- `LayeredImage.nlayers`. -/
def nlayers (stack : MLayered) : Nat := stack.layers.length

instance : IsTotal (ℚ × Nat) pairR where
  total p q := by
    rcases lt_trichotomy p.1 q.1 with h | h | h
    · exact Or.inl (Or.inl h)
    · rcases Nat.le_total p.2 q.2 with h2 | h2
      · exact Or.inl (Or.inr ⟨h, h2⟩)
      · exact Or.inr (Or.inr ⟨h.symm, h2⟩)
    · exact Or.inr (Or.inl h)

instance : IsTrans (ℚ × Nat) pairR where
  trans p q r hpq hqr := by
    rcases hpq with h1 | ⟨e1, l1⟩
    · rcases hqr with h2 | ⟨e2, _⟩
      · exact Or.inl (h1.trans h2)
      · exact Or.inl (e2 ▸ h1)
    · rcases hqr with h2 | ⟨e2, l2⟩
      · exact Or.inl (e1 ▸ h2)
      · exact Or.inr ⟨e1.trans e2, l1.trans l2⟩

/-- `i` is a pixel index whose coordinate value is at the smallest
absolute distance from the bound `b`, with ties going to the lowest
index: the property claimed of the nearest-neighbor snap. -/
def IsNearest (vals : List ℚ) (b : ℚ) (i : Nat) : Prop :=
  i < vals.length ∧ ∀ j, j < vals.length →
    |vals.getD i 0 - b| < |vals.getD j 0 - b| ∨
      (|vals.getD i 0 - b| = |vals.getD j 0 - b| ∧ i ≤ j)

/-- An all-white opaque 1-by-1 image used to instantiate theorems. -/
def imA : MImage := ⟨1, 1, fun _ _ _ => 255, none⟩

/-- An all-black 2-by-1 image (different shape from `imA`). -/
def imB : MImage := ⟨2, 1, fun _ _ _ => 0, none⟩

/-- A 2-by-2 all-black image with no domain, for instantiating the
pixel-write claims. -/
def imC : MImage := ⟨2, 2, fun _ _ _ => 0, none⟩

/-- An RGB witness color for the constructor claim. -/
def bgW : List Nat := [7, 8, 9]

/-- Whether a component is a slice. -/
def isSliceC : IdxC → Bool
  | .slice _ _ => true
  | _ => false

/-- A drawable instance for exercising the compositing theorem. -/
def drW : Drawable :=
  ⟨fun _ _ => ([], []), fun _ => .ok (fun _ _ => false), .const [1, 2, 3, 4]⟩

/-- Whether a read returned a result rather than raising. -/
def resultOk : Except Err GetResult → Bool
  | .ok _ => true
  | .error _ => false

/-- A concrete domain over a 2-by-2 grid: column coordinates 0, 1 and
row coordinates 0, 1. -/
def domW : DomainFn := fun _ _ => ([[0, 1], [0, 1]], [[0, 0], [1, 1]])

/-- A 2-by-2 black image with `domW` attached. -/
def imW : MImage := ⟨2, 2, fun _ _ _ => 0, some domW⟩

/-- A three-component mathematical index whose first two swapped
components are slices: x-slice 0:1 (ints), y-slice 0.5:1.0 (floats),
and a trailing integer component. -/
def idxW : PyIndex := .tuple [.slice (some (.bint 0)) (some (.bint 1)),
  .slice (some (.bfloat (mkRat 1 2))) (some (.bfloat 1)), .int 0]

/-! ### Helper lemmas -/

theorem qsub_eq (a b : ℚ) : qsub a b = a - b := by
  have ha : (a.den : ℤ) ≠ 0 := Int.natCast_ne_zero.2 a.den_nz
  have hb : (b.den : ℤ) ≠ 0 := Int.natCast_ne_zero.2 b.den_nz
  rw [qsub, Rat.mkRat_eq_divInt]
  conv_rhs => rw [← Rat.num_divInt_den a, ← Rat.num_divInt_den b]
  rw [Rat.divInt_sub_divInt _ _ ha hb]
  push_cast
  rfl

theorem qabs_eq (a : ℚ) : qabs a = |a| := by
  rw [qabs]
  by_cases h : a.num < 0
  · have ha : a < 0 := by
      by_contra hc
      exact absurd (Rat.num_nonneg.2 (not_lt.1 hc)) (not_le.2 h)
    rw [if_pos h, abs_of_neg ha]
    rfl
  · have ha : 0 ≤ a := Rat.num_nonneg.1 (not_lt.1 h)
    rw [if_neg h, abs_of_nonneg ha]

theorem mem_snapPairs {vals : List ℚ} {b : ℚ} {q : ℚ × Nat}
    (h : q ∈ vals.enum.map (fun p => (qabs (qsub p.2 b), p.1))) :
    q.2 < vals.length ∧ q.1 = |vals.getD q.2 0 - b| := by
  obtain ⟨⟨i, x⟩, hm, he⟩ := List.mem_map.1 h
  have hx := List.mk_mem_enum_iff_getElem?.1 hm
  have hi : i < vals.length := (List.getElem?_eq_some.1 hx).1
  have hxv : x = vals.getD i 0 := by
    obtain ⟨h', e⟩ := List.getElem?_eq_some.1 hx
    rw [← e, List.getD_eq_getElem vals 0 h']
  subst he
  refine ⟨hi, ?_⟩
  simp only [hxv, qabs_eq, qsub_eq]

theorem snapPairs_mem {vals : List ℚ} (b : ℚ) {j : Nat} (hj : j < vals.length) :
    (|vals.getD j 0 - b|, j) ∈ vals.enum.map (fun p => (qabs (qsub p.2 b), p.1)) := by
  refine List.mem_map.2 ⟨(j, vals.getD j 0), ?_, by simp [qabs_eq, qsub_eq]⟩
  refine List.mk_mem_enum_iff_getElem?.2 ?_
  rw [List.getElem?_eq_some]
  exact ⟨hj, (List.getD_eq_getElem vals 0 hj).symm⟩

/-- The pixel index the sort-based snap selects is a nearest one, ties
to the lowest index. -/
theorem snap_nearest (vals : List ℚ) (b : ℚ) (h : vals ≠ []) :
    ∃ i, snap vals b = some i ∧ IsNearest vals b i := by
  set pairs : List (ℚ × Nat) := vals.enum.map (fun p => (qabs (qsub p.2 b), p.1))
    with hpairs
  have hplen : pairs.length = vals.length := by simp [hpairs]
  have hperm : List.Perm (pairs.insertionSort pairR) pairs :=
    List.perm_insertionSort _ _
  have hsorted : List.Sorted pairR (pairs.insertionSort pairR) :=
    List.sorted_insertionSort _ _
  have hne : pairs.insertionSort pairR ≠ [] := by
    intro hc
    have := hperm.length_eq
    rw [hc, hplen] at this
    exact h (List.eq_nil_of_length_eq_zero this.symm)
  obtain ⟨hd, tl, hcons⟩ := List.exists_cons_of_ne_nil hne
  have hsnap : snap vals b = some hd.2 := by
    rw [snap, ← hpairs, hcons]
    rfl
  have hdmem : hd ∈ pairs := hperm.mem_iff.1 (hcons ▸ List.mem_cons_self hd tl)
  obtain ⟨hdlt, hdval⟩ := mem_snapPairs hdmem
  refine ⟨hd.2, hsnap, hdlt, fun j hj => ?_⟩
  have hjm : (|vals.getD j 0 - b|, j) ∈ pairs.insertionSort pairR :=
    hperm.mem_iff.2 (snapPairs_mem b hj)
  rw [hcons] at hjm hsorted
  rcases List.mem_cons.1 hjm with he | htl
  · right
    rw [← he]
    exact ⟨rfl, le_refl j⟩
  · have hrel : pairR hd (|vals.getD j 0 - b|, j) :=
      List.rel_of_sorted_cons hsorted _ htl
    rcases hrel with hlt | ⟨heq, hle⟩
    · left
      rw [← hdval]
      exact hlt
    · right
      exact ⟨by rw [← hdval, heq], hle⟩

/-! ### Claim theorems -/

/-- C2: an index tuple is treated as a pixel address if and only if
every component is an integer or a slice whose start and stop are not
floats; a single float component, or a single slice with a float start
or stop, forces mathematical-address interpretation of the entire
index. -/
theorem c2_pixel_addr_iff (cs : List IdxC) :
    (isPixelAddr cs = true ↔ ∀ c ∈ cs, (∃ n, c = IdxC.int n) ∨
      ∃ s t, c = IdxC.slice s t ∧ obIsFloat s = false ∧ obIsFloat t = false) ∧
    (∀ c ∈ cs, ((∃ q, c = IdxC.float q) ∨
        ∃ s t, c = IdxC.slice s t ∧ (obIsFloat s = true ∨ obIsFloat t = true)) →
      isPixelAddr cs = false) := by
  have hiff : ∀ c : IdxC, compIsPixel c = true ↔ ((∃ n, c = IdxC.int n) ∨
      ∃ s t, c = IdxC.slice s t ∧ obIsFloat s = false ∧ obIsFloat t = false) := by
    intro c
    cases c with
    | int n => simp [compIsPixel]
    | float q => simp [compIsPixel]
    | slice s t =>
      simp only [compIsPixel, Bool.not_eq_true']
      constructor
      · intro h
        rcases Bool.or_eq_false_iff.1 h with ⟨hs, ht⟩
        exact Or.inr ⟨s, t, rfl, hs, ht⟩
      · rintro (⟨n, h⟩ | ⟨s', t', he, hs, ht⟩)
        · cases h
        · cases he
          simp [hs, ht]
  constructor
  · rw [isPixelAddr, List.all_eq_true]
    exact ⟨fun h c hc => (hiff c).1 (h c hc), fun h c hc => (hiff c).2 (h c hc)⟩
  · intro c hc hm
    have hcf : compIsPixel c = false := by
      rcases hm with ⟨q, rfl⟩ | ⟨s, t, rfl, hf⟩
      · rfl
      · simp only [compIsPixel, Bool.not_eq_true']
        rcases hf with hs | ht
        · simp [hs]
        · simp [ht]
    rw [isPixelAddr]
    rcases hb : cs.all compIsPixel with _ | _
    · rfl
    · exact absurd ((List.all_eq_true.1 hb) c hc) (by simp [hcf])

/-- C3: the claim says negation works for every buffer of any width and
height, but `__neg__` reshapes the alpha view to `(width, height, 1)` —
transposed — so `np.append` rejects every non-square image; at the
failing input (a 1-pixel-high, 2-pixel-wide buffer) the code raises a
`ValueError` instead of producing the negated buffer the claim and the
spec describe. -/
theorem c3_neg_nonsquare_raises :
    imageNeg ⟨1, 2, fun _ _ _ => 0, none⟩ = .error .valueError := rfl

/-- C5: binary AND raises a type error iff the right operand is not an
`Image`, raises a shape error iff both are `Image`s of different pixel
shapes, and otherwise builds a fresh buffer holding the elementwise
(uint8) sum of the two arrays; the operands are not modified (the
embedding is pure: the result is a new value and `a`, `b` appear
unchanged in the conclusion). -/
theorem c5_and_errors (a : MImage) (b : PyVal) :
    (imageAnd a b = .error .typeError ↔ b = .other) ∧
    (∀ bi, b = .img bi →
      ((imageAnd a b = .error .valueError ↔
        ¬(a.height = bi.height ∧ a.width = bi.width)) ∧
      ((a.height = bi.height ∧ a.width = bi.width) →
        imageAnd a b = .ok ⟨a.height, a.width,
          fun y x c => (a.pix y x c + bi.pix y x c) % 256, none⟩))) := by
  constructor
  · cases b with
    | other => simp [imageAnd]
    | img bi =>
      simp only [imageAnd]
      constructor
      · intro h
        by_cases hc : a.height = bi.height ∧ a.width = bi.width
        · rw [if_pos hc] at h
          cases h
        · rw [if_neg hc] at h
          cases h
      · intro h
        cases h
  · rintro bi rfl
    constructor
    · constructor
      · intro h
        by_cases hc : a.height = bi.height ∧ a.width = bi.width
        · rw [imageAnd, if_pos hc] at h
          cases h
        · exact hc
      · intro h
        rw [imageAnd, if_neg h]
    · intro hc
      rw [imageAnd, if_pos hc]

/-- C10: for buffers of identical shape, AND is the elementwise sum
reduced mod 256 (uint8 wraparound), so 255 + 255 gives 254 per
channel — wraparound, not saturation. -/
theorem c10_and_wraparound (a bi : MImage)
    (hh : a.height = bi.height) (hw : a.width = bi.width) :
    ∃ c, imageAnd a (.img bi) = .ok c ∧
      (∀ y x ch, c.pix y x ch = (a.pix y x ch + bi.pix y x ch) % 256) ∧
      (∀ y x ch, a.pix y x ch = 255 → bi.pix y x ch = 255 →
        c.pix y x ch = 254) := by
  refine ⟨_, by rw [imageAnd, if_pos ⟨hh, hw⟩], fun y x ch => rfl, ?_⟩
  intro y x ch h1 h2
  show (a.pix y x ch + bi.pix y x ch) % 256 = 254
  rw [h1, h2]

theorem c2_pixel_addr_iff_witness :
    isPixelAddr [IdxC.int 0, IdxC.slice (some (.bint 1)) none] = true ∧
    isPixelAddr [IdxC.int 0, IdxC.float 1] = false := by
  constructor
  · refine (c2_pixel_addr_iff _).1.2 ?_
    intro c hc
    rcases List.mem_cons.1 hc with rfl | hc2
    · exact Or.inl ⟨0, rfl⟩
    · rcases List.mem_cons.1 hc2 with rfl | h3
      · exact Or.inr ⟨some (.bint 1), none, rfl, rfl, rfl⟩
      · cases h3
  · exact (c2_pixel_addr_iff _).2 (IdxC.float 1)
      (List.mem_cons_of_mem _ (List.mem_cons_self _ _)) (Or.inl ⟨1, rfl⟩)

theorem c5_and_errors_witness :
    imageAnd imA .other = .error .typeError ∧
    imageAnd imA (.img imB) = .error .valueError ∧
    imageAnd imA (.img imA) = .ok ⟨imA.height, imA.width,
      fun y x c => (imA.pix y x c + imA.pix y x c) % 256, none⟩ := by
  refine ⟨(c5_and_errors imA .other).1.2 rfl, ?_, ?_⟩
  · exact ((c5_and_errors imA (.img imB)).2 imB rfl).1.2 (by decide)
  · exact ((c5_and_errors imA (.img imA)).2 imA rfl).2 ⟨rfl, rfl⟩

theorem c10_and_wraparound_witness :
    ∃ c, imageAnd imA (.img imA) = .ok c ∧
      (∀ y x ch, c.pix y x ch = (imA.pix y x ch + imA.pix y x ch) % 256) ∧
      (∀ y x ch, imA.pix y x ch = 255 → imA.pix y x ch = 255 →
        c.pix y x ch = 254) :=
  c10_and_wraparound imA imA rfl rfl

theorem axisSel_nat {size i : Nat} (h : i < size) :
    axisSel size (.int (i : Int)) = .ok (.one i) := by
  have hw : intWrap size (i : Int) = (i : Int) := by
    rw [intWrap, if_neg (by omega)]
  simp only [axisSel, hw]
  rw [if_pos (by omega : (0 : Int) ≤ (i : Int) ∧ (i : Int) < (size : Int))]
  simp

theorem list_eq_four {l : List Nat} (h : l.length = 4) :
    l = [l.getD 0 0, l.getD 1 0, l.getD 2 0, l.getD 3 0] := by
  cases l with
  | nil => simp at h
  | cons a t =>
    cases t with
    | nil => simp at h
    | cons b t2 =>
      cases t2 with
      | nil => simp at h
      | cons c t3 =>
        cases t3 with
        | nil => simp at h
        | cons d t4 =>
          cases t4 with
          | nil => rfl
          | cons e t5 => simp at h

theorem widen_length {v : List Nat} (h : v.length = 3 ∨ v.length = 4) :
    (widen v).length = 4 := by
  rcases h with h | h
  · rw [widen, if_pos h]
    simp [h]
  · rw [widen, if_neg (by omega)]
    exact h

theorem widen_lt {v : List Nat} (hval : ∀ u ∈ v, u < 256) :
    ∀ u ∈ widen v, u < 256 := by
  intro u hu
  rw [widen] at hu
  split at hu
  · rcases List.mem_append.1 hu with h1 | h1
    · exact hval u h1
    · rw [List.mem_singleton.1 h1]
      omega
  · exact hval u hu

/-- C4: writing a color at an in-bounds pixel address (x, y) and then
reading the same address returns exactly that color, with an RGB
3-tuple widened to RGBA by appending 255 before storage; both the
write and the read swap the first two index components (public x-then-y
to storage y-then-x, visible in the `flipIndex` equation and in the
storage address `pix y x` receiving the data). -/
theorem c4_set_get_roundtrip (im : MImage) (x y : Nat) (v : List Nat)
    (hx : x < im.width) (hy : y < im.height)
    (hlen : v.length = 3 ∨ v.length = 4) (hval : ∀ u ∈ v, u < 256) :
    flipIndex (.tuple [.int (x : Int), .int (y : Int)]) =
      some [.int (y : Int), .int (x : Int)] ∧
    ∃ im2, imageSetitem im (.tuple [.int (x : Int), .int (y : Int)]) v = .ok im2 ∧
      (∀ c, c < 4 → im2.pix y x c = (widen v).getD c 0) ∧
      (∀ y' x' c, ¬(y' = y ∧ x' = x) → im2.pix y' x' c = im.pix y' x' c) ∧
      imageGetitem im2 (.tuple [.int (x : Int), .int (y : Int)]) =
        .ok (.vec (widen v)) := by
  have hwlen := widen_length hlen
  have hwval := widen_lt hval
  have hgetD : ∀ c, c < 4 → (widen v).getD c 0 % 256 = (widen v).getD c 0 := by
    intro c hc
    have hc' : c < (widen v).length := by omega
    rw [List.getD_eq_getElem _ _ hc']
    exact Nat.mod_eq_of_lt (hwval _ (List.getElem_mem hc'))
  have hset : imageSetitem im (.tuple [.int (x : Int), .int (y : Int)]) v =
      .ok { im with pix := (fun y' x' c =>
        if y' = y ∧ x' = x ∧ c < 4 then (widen v).getD c 0 % 256
        else im.pix y' x' c) } := by
    simp only [imageSetitem, flipIndex]
    rw [axisSel_nat hy, axisSel_nat hx]
    simp only [hwlen]
    rfl
  refine ⟨rfl, _, hset, ?_, ?_, ?_⟩
  · intro c hc
    show (if y = y ∧ x = x ∧ c < 4 then (widen v).getD c 0 % 256
      else im.pix y x c) = (widen v).getD c 0
    rw [if_pos ⟨rfl, rfl, hc⟩]
    exact hgetD c hc
  · intro y' x' c hne
    show (if y' = y ∧ x' = x ∧ c < 4 then (widen v).getD c 0 % 256
      else im.pix y' x' c) = im.pix y' x' c
    rw [if_neg (by tauto)]
  · rw [imageGetitem]
    simp only [flipIndex]
    have hpx : isPixelAddr [IdxC.int (y : Int), IdxC.int (x : Int)] = true := rfl
    rw [if_pos hpx]
    rw [pixelGet]
    rw [if_neg (by simp)]
    simp only [List.getD_cons_zero, List.getD_cons_succ]
    rw [axisSel_nat hy, axisSel_nat hx]
    show Except.ok (GetResult.vec ([0, 1, 2, 3].map fun c =>
      if y = y ∧ x = x ∧ c < 4 then (widen v).getD c 0 % 256
      else im.pix y x c)) = .ok (.vec (widen v))
    have : ([0, 1, 2, 3].map fun c =>
        if y = y ∧ x = x ∧ c < 4 then (widen v).getD c 0 % 256
        else im.pix y x c) = widen v := by
      rw [List.map_cons, List.map_cons, List.map_cons, List.map_cons,
        List.map_nil]
      rw [if_pos ⟨rfl, rfl, by omega⟩, if_pos ⟨rfl, rfl, by omega⟩,
        if_pos ⟨rfl, rfl, by omega⟩, if_pos ⟨rfl, rfl, by omega⟩]
      rw [hgetD 0 (by omega), hgetD 1 (by omega), hgetD 2 (by omega),
        hgetD 3 (by omega)]
      exact (list_eq_four hwlen).symm
    rw [this]

theorem c4_set_get_roundtrip_witness :
    (1 : Nat) < imC.width ∧
    ∃ im2, imageSetitem imC
        (.tuple [.int ((1 : Nat) : Int), .int ((0 : Nat) : Int)]) [10, 20, 30] =
        .ok im2 ∧
      imageGetitem im2 (.tuple [.int ((1 : Nat) : Int), .int ((0 : Nat) : Int)]) =
        .ok (.vec [10, 20, 30, 255]) := by
  refine ⟨by decide, ?_⟩
  obtain ⟨-, im2, hset, -, -, hget⟩ := c4_set_get_roundtrip imC 1 0 [10, 20, 30]
    (by decide) (by decide) (Or.inl rfl) (by decide)
  exact ⟨im2, hset, hget⟩

theorem getD_mod_eq {l : List Nat} (hl : ∀ u ∈ l, u < 256) {c : Nat}
    (hc : c < l.length) : l.getD c 0 % 256 = l.getD c 0 := by
  rw [List.getD_eq_getElem _ _ hc]
  exact Nat.mod_eq_of_lt (hl _ (List.getElem_mem hc))

theorem pyListGet_nat {α : Type} (l : List α) (i : Nat) (h : i < l.length) :
    pyListGet l (i : Int) = some (l.get ⟨i, h⟩) := by
  have hj : ¬((i : Int) < 0) := by omega
  have ht : ((i : Int)).toNat = i := Int.toNat_natCast i
  simp only [pyListGet, if_neg hj, ht]
  rw [dif_pos ⟨by omega, h⟩]

/-- C8: a buffer constructed from (w, h, color) has width w, height h
and every pixel equal to the RGBA-widened color; construction with no
pixels array fails with a validation error when width or height is
missing; and a supplied pixels array whose shape is not 3-dimensional
with last dimension 4 makes construction fail with a validation
error. -/
theorem c8_init_properties (w h : Nat) (dom : Option DomainFn) (bg : List Nat)
    (hlen : bg.length = 3 ∨ bg.length = 4) (hval : ∀ u ∈ bg, u < 256) :
    (∃ im, imageInit (some w) (some h) dom bg none = .ok im ∧
      im.width = w ∧ im.height = h ∧
      (∀ y x c, c < 4 → im.pix y x c = (widen bg).getD c 0)) ∧
    (∀ w' h' : Option Nat, w' = none ∨ h' = none →
      imageInit w' h' dom bg none = .error .valueError) ∧
    (∀ a : NDArr, a.shape.length ≠ 3 ∨ a.shape.getLast? ≠ some 4 →
      imageInit (some w) (some h) dom bg (some a) = .error .valueError) := by
  have hwlen := widen_length hlen
  have hwval := widen_lt hval
  refine ⟨⟨⟨h, w, fun _ _ c => (widen bg).getD c 0 % 256, dom⟩, ?_, rfl, rfl, ?_⟩,
    ?_, ?_⟩
  · simp only [imageInit]
    rw [if_pos hwlen]
  · intro y x c hc
    exact getD_mod_eq hwval (by omega)
  · rintro w' h' (rfl | rfl)
    · rfl
    · cases w' <;> rfl
  · intro a ha
    simp only [imageInit]
    rw [if_pos ha]

theorem c8_init_properties_witness :
    bgW.length = 3 ∧
    ∃ im, imageInit (some 3) (some 2) none bgW none = .ok im ∧
      im.width = 3 ∧ im.height = 2 ∧
      (∀ y x c, c < 4 → im.pix y x c = (widen bgW).getD c 0) := by
  obtain ⟨⟨im, h1, h2, h3, h4⟩, -, -⟩ :=
    c8_init_properties 3 2 none bgW (Or.inl rfl) (by decide)
  exact ⟨rfl, im, h1, h2, h3, h4⟩

/-- C9: a `LayeredImage` built from (w, h, n) has exactly n layers,
reports width w and height h, and every layer is a w-by-h buffer filled
with transparent black (0, 0, 0, 0); integer indexing at i returns the
stored i-th layer itself (the embedding returns the very list element,
the pure rendering of reference semantics). -/
theorem c9_layered_init (w h n : Nat) :
    ∃ L, layeredInit (some w) (some h) n none = .ok L ∧
      nlayers L = n ∧ L.lwidth = some w ∧ L.lheight = some h ∧
      (∀ i : Nat, i < n → ∃ im, layeredGetitem L (.int (i : Int)) = .ok (.layer im) ∧
        L.layers.get? i = some im ∧ im.width = w ∧ im.height = h ∧
        ∀ y x c, im.pix y x c = 0) := by
  by_cases hn : n = 0
  · subst hn
    exact ⟨⟨[], some w, some h⟩, rfl, rfl, rfl, rfl,
      fun i hi => absurd hi (by omega)⟩
  · have hinit : imageInit (some w) (some h) none [0, 0, 0, 0] none =
        .ok ⟨h, w, fun _ _ c => ([0, 0, 0, 0] : List Nat).getD c 0 % 256, none⟩ := by
      simp only [imageInit]
      rw [if_pos (by rfl)]
      rfl
    refine ⟨⟨List.replicate n ⟨h, w, fun _ _ c =>
        ([0, 0, 0, 0] : List Nat).getD c 0 % 256, none⟩, some w, some h⟩,
      ?_, by simp [nlayers], rfl, rfl, ?_⟩
    · simp only [layeredInit]
      rw [if_neg hn, hinit]
    · intro i hi
      refine ⟨⟨h, w, fun _ _ c => ([0, 0, 0, 0] : List Nat).getD c 0 % 256, none⟩,
        ?_, ?_, rfl, rfl, fun y x c => ?_⟩
      · have hi' : i < (List.replicate n (⟨h, w, fun _ _ c =>
            ([0, 0, 0, 0] : List Nat).getD c 0 % 256, none⟩ : MImage)).length := by
          rw [List.length_replicate]
          exact hi
        simp only [layeredGetitem, pyListGet_nat _ i hi']
        congr 2
        simp [List.get_eq_getElem]
      · rw [List.get?_eq_getElem?, List.getElem?_replicate, if_pos hi]
      · rcases c with _ | _ | _ | _ | c <;> rfl

theorem callWith_cases (im : MImage) (f : Drawable) (o u : Bool)
    (dfn : DomainFn) :
    (∀ e, (callWith im f o u dfn).1 = .error e → (callWith im f o u dfn).2 = im) ∧
    ((callWith im f o u dfn).1 = .ok () →
      (callWith im f o u dfn).2.domain =
        (if o = true ∧ u = false then some f.domainfunc else im.domain)) := by
  simp only [callWith]
  cases hm : f.maskfunc (dfn im.width im.height) with
  | error e =>
    simp only [hm]
    refine ⟨fun e' _ => ?_, fun hok => ?_⟩
    · trivial
    · simp at hok
  | ok mask =>
    simp only [hm]
    cases hc : colorStep f (dfn im.width im.height) mask with
    | error e =>
      simp only [hc]
      refine ⟨fun e' _ => ?_, fun hok => ?_⟩
      · trivial
      · simp at hok
    | ok colors =>
      simp only [hc]
      constructor
      · intro e' he
        cases o <;> cases u <;> simp at he
      · intro _
        cases o <;> cases u <;> simp

/-- C6: applying a drawable with `use_host_domain` and no attached
domain raises a runtime error with the buffer untouched; on any failed
call the buffer (pixels and domain alike) is exactly its initial state,
so a failing mask or color step never leaves the drawable's domain
behind; and on success the attached domain becomes the drawable's
domain function precisely when `overwrite_domain` is true and
`use_host_domain` is false, staying unchanged in every other parameter
combination. -/
theorem c6_call_domain_discipline (im : MImage) (f : Drawable) (o u : Bool) :
    (u = true → im.domain = none → imageCall im f o u = (.error .runtimeError, im)) ∧
    (∀ e, (imageCall im f o u).1 = .error e → (imageCall im f o u).2 = im) ∧
    ((imageCall im f o u).1 = .ok () →
      (imageCall im f o u).2.domain =
        (if o = true ∧ u = false then some f.domainfunc else im.domain)) := by
  cases u with
  | true =>
    cases hd : im.domain with
    | none =>
      have h1 : imageCall im f o true = (.error .runtimeError, im) := by
        simp only [imageCall, hd]
      refine ⟨fun _ _ => h1, fun e he => by rw [h1], fun hok => ?_⟩
      rw [h1] at hok
      simp at hok
    | some d =>
      have h1 : imageCall im f o true = callWith im f o true d := by
        simp only [imageCall, hd]
      have hcw := callWith_cases im f o true d
      rw [hd] at hcw
      refine ⟨fun _ habs => ?_, fun e he => ?_, fun hok => ?_⟩
      · cases habs
      · rw [h1] at he ⊢
        exact hcw.1 e he
      · rw [h1] at hok ⊢
        exact hcw.2 hok
  | false =>
    have h1 : imageCall im f o false = callWith im f o false f.domainfunc := rfl
    refine ⟨fun hu _ => ?_, fun e he => ?_, fun hok => ?_⟩
    · cases hu
    · rw [h1] at he ⊢
      exact (callWith_cases im f o false f.domainfunc).1 e he
    · rw [h1] at hok ⊢
      exact (callWith_cases im f o false f.domainfunc).2 hok

theorem axisSel_err {size : Nat} {c : IdxC} {e : Err}
    (h : axisSel size c = .error e) : e = .indexError ∨ e = .typeError := by
  cases c with
  | int i =>
    simp only [axisSel] at h
    by_cases hc : 0 ≤ intWrap size i ∧ intWrap size i < (size : Int)
    · rw [if_pos hc] at h
      cases h
    · rw [if_neg hc] at h
      cases h
      exact Or.inl rfl
  | float q =>
    cases h
    exact Or.inl rfl
  | slice s t =>
    simp only [axisSel] at h
    by_cases hc : (obIsFloat s || obIsFloat t) = true
    · rw [if_pos hc] at h
      cases h
      exact Or.inr rfl
    · rw [if_neg hc] at h
      cases h

theorem axisSel_ne_runtime (size : Nat) (c : IdxC) :
    axisSel size c ≠ .error .runtimeError := by
  intro h
  rcases axisSel_err h with h2 | h2 <;> cases h2

theorem pixelGet_no_runtime (im : MImage) (cs : List IdxC) :
    pixelGet im cs ≠ .error .runtimeError := by
  intro h
  rw [pixelGet] at h
  split at h
  · cases h
  · repeat' (
      first
        | cases h
        | exact axisSel_ne_runtime _ _ (by assumption)
        | split at h)

theorem snapOB_err {vals : List ℚ} {ob : Option Bnd} {e : Err}
    (h : snapOB vals ob = .error e) : e = .indexError := by
  cases ob with
  | none => cases h
  | some b =>
    simp only [snapOB] at h
    split at h
    · cases h
    · cases h
      rfl

theorem snapOB_ne_runtime {vals : List ℚ} {ob : Option Bnd}
    (h : snapOB vals ob = .error .runtimeError) : False := by
  cases snapOB_err h

theorem mathGet_no_runtime (im : MImage) (dom : DomainFn)
    (a b c d : Option Bnd) :
    mathGet im dom a b c d ≠ .error .runtimeError := by
  intro h
  simp only [mathGet] at h
  split at h
  repeat' (
    first
      | exact pixelGet_no_runtime im _ h
      | cases h
      | exact snapOB_ne_runtime (by assumption)
      | split at h)

theorem c6_call_domain_discipline_witness :
    imageCall imC drW true true = (.error .runtimeError, imC) :=
  (c6_call_domain_discipline imC drW true true).1 rfl rfl

theorem c9_layered_init_witness :
    ∃ L, layeredInit (some 8) (some 8) 3 none = .ok L ∧
      nlayers L = 3 ∧ L.lwidth = some 8 ∧ L.lheight = some 8 ∧
      (∀ i : Nat, i < 3 → ∃ im, layeredGetitem L (.int (i : Int)) = .ok (.layer im) ∧
        L.layers.get? i = some im ∧ im.width = 8 ∧ im.height = 8 ∧
        ∀ y x c, im.pix y x c = 0) :=
  c9_layered_init 8 8 3

/-- C7 counterexample: `idxW` flips to a mathematical index (its
classification is `false`) with three components — not a
two-dimensional slice index — and the image has a domain attached, yet
the read returns a result instead of raising the validation error the
claim requires: only the first two components are checked and the
trailing component is silently dropped. -/
theorem c7_counterexample :
    isPixelAddr [.slice (some (.bfloat (mkRat 1 2))) (some (.bfloat 1)),
      .slice (some (.bint 0)) (some (.bint 1)), .int 0] = false ∧
    imW.domain = some domW ∧
    resultOk (imageGetitem imW idxW) = true := by
  refine ⟨rfl, rfl, ?_⟩
  decide

/-- C7 (amended): for an index that survives the coordinate swap and
classifies as mathematical, a runtime error is raised if and only if no
domain is attached; given a domain, a validation error is raised
whenever the first or second swapped component is not a slice; and when
the first two swapped components are slices the read proceeds to the
snapping path with any further components ignored (rather than being
rejected, as the original claim stated). -/
theorem c7_math_addr_errors (im : MImage) (index : PyIndex) (idx : List IdxC)
    (hflip : flipIndex index = some idx) (hmath : isPixelAddr idx = false) :
    (imageGetitem im index = .error .runtimeError ↔ im.domain = none) ∧
    (im.domain ≠ none →
      (isSliceC (idx.getD 0 (.slice none none)) = false ∨
        isSliceC (idx.getD 1 (.slice none none)) = false) →
      imageGetitem im index = .error .valueError) ∧
    (∀ dom ys yt xs xt rest, im.domain = some dom →
      idx = .slice ys yt :: .slice xs xt :: rest →
      imageGetitem im index = mathGet im dom ys yt xs xt) := by
  have hbase : imageGetitem im index = (match im.domain with
      | none => .error .runtimeError
      | some dom =>
        match idx.getD 0 (.slice none none), idx.getD 1 (.slice none none) with
        | .slice a b, .slice c d => mathGet im dom a b c d
        | _, _ => .error .valueError) := by
    simp only [imageGetitem, hflip, hmath, Bool.false_eq_true, if_false]
  refine ⟨⟨?_, ?_⟩, ?_, ?_⟩
  · intro h
    cases hd : im.domain with
    | none => rfl
    | some dom =>
      rw [hbase, hd] at h
      exfalso
      cases hc0 : idx.getD 0 (.slice none none) <;>
        cases hc1 : idx.getD 1 (.slice none none) <;>
        rw [hc0, hc1] at h <;>
        first
          | exact mathGet_no_runtime im dom _ _ _ _ h
          | cases h
  · intro hd
    rw [hbase, hd]
  · intro hd hsl
    cases hdm : im.domain with
    | none => exact absurd hdm hd
    | some dom =>
      rw [hbase, hdm]
      rcases hsl with h0 | h0
      · cases hc0 : idx.getD 0 (.slice none none) with
        | int n => rfl
        | float q => rfl
        | slice a b =>
          rw [hc0] at h0
          cases h0
      · cases hc0 : idx.getD 0 (.slice none none) with
        | int n => rfl
        | float q => rfl
        | slice a b =>
          cases hc1 : idx.getD 1 (.slice none none) with
          | int n => rfl
          | float q => rfl
          | slice a2 b2 =>
            rw [hc1] at h0
            cases h0
  · intro dom ys yt xs xt rest hdm heq
    rw [hbase, hdm, heq]
    rfl

theorem c7_math_addr_errors_witness :
    flipIndex (.scalar (.float 1)) = some [.slice none none, .float 1] ∧
    imC.domain = none ∧
    imageGetitem imC (.scalar (.float 1)) = .error .runtimeError :=
  ⟨rfl, rfl, (c7_math_addr_errors imC (.scalar (.float 1))
    [.slice none none, .float 1] rfl rfl).1.2 rfl⟩

theorem snapOB_spec (vals : List ℚ) (hne : vals ≠ []) (ob : Option Bnd) :
    ∃ s, snapOB vals ob = .ok s ∧ (ob = none → s = none) ∧
      (∀ b, ob = some b →
        ∃ i : Nat, s = some (.bint (i : Int)) ∧ IsNearest vals (bval b) i) := by
  cases ob with
  | none => exact ⟨none, rfl, fun _ => rfl, fun b h => Option.noConfusion h⟩
  | some b =>
    obtain ⟨i, hs, hn⟩ := snap_nearest vals (bval b) hne
    refine ⟨some (.bint (i : Int)), ?_, fun h => Option.noConfusion h,
      fun b' hb => ?_⟩
    · simp only [snapOB, hs]
    · rw [Option.some.inj hb] at hn
      exact ⟨i, rfl, hn⟩

/-- C1: for a buffer with a domain attached and a mathematical index of
two slices, every present bound is snapped (`snapOB`) to a pixel index
at minimal absolute distance from the bound over the corresponding
coordinate row/column, ties to the lowest index (`IsNearest`); a `None`
bound stays `None`; and the read equals a direct pixel-space read whose
x slice is (snapped x-start, snapped x-stop) and whose y slice is the
swapped pair (snapped y-stop, snapped y-start). -/
theorem c1_math_snap_delegates (im : MImage) (dom : DomainFn)
    (xS xT yS yT : Option Bnd) (xss yss : List (List ℚ)) (xrow ycol : List ℚ)
    (hdom : im.domain = some dom)
    (hgrids : dom im.width im.height = (xss, yss))
    (hxrow : xss.head? = some xrow)
    (hycol : yss.mapM List.head? = some ycol)
    (hxne : xrow ≠ []) (hyne : ycol ≠ [])
    (hmath : isPixelAddr [.slice yS yT, .slice xS xT] = false) :
    ∃ sxs sxt sys syt : Option Bnd,
      snapOB xrow xS = .ok sxs ∧ snapOB xrow xT = .ok sxt ∧
      snapOB ycol yS = .ok sys ∧ snapOB ycol yT = .ok syt ∧
      (xS = none → sxs = none) ∧ (xT = none → sxt = none) ∧
      (yS = none → sys = none) ∧ (yT = none → syt = none) ∧
      (∀ b, xS = some b →
        ∃ i : Nat, sxs = some (.bint (i : Int)) ∧ IsNearest xrow (bval b) i) ∧
      (∀ b, xT = some b →
        ∃ i : Nat, sxt = some (.bint (i : Int)) ∧ IsNearest xrow (bval b) i) ∧
      (∀ b, yS = some b →
        ∃ i : Nat, sys = some (.bint (i : Int)) ∧ IsNearest ycol (bval b) i) ∧
      (∀ b, yT = some b →
        ∃ i : Nat, syt = some (.bint (i : Int)) ∧ IsNearest ycol (bval b) i) ∧
      imageGetitem im (.tuple [.slice xS xT, .slice yS yT]) =
        pixelGet im [.slice syt sys, .slice sxs sxt] := by
  obtain ⟨sxs, hx1, hxn1, hxb1⟩ := snapOB_spec xrow hxne xS
  obtain ⟨sxt, hx2, hxn2, hxb2⟩ := snapOB_spec xrow hxne xT
  obtain ⟨sys, hy1, hyn1, hyb1⟩ := snapOB_spec ycol hyne yS
  obtain ⟨syt, hy2, hyn2, hyb2⟩ := snapOB_spec ycol hyne yT
  refine ⟨sxs, sxt, sys, syt, hx1, hx2, hy1, hy2, hxn1, hxn2, hyn1, hyn2,
    hxb1, hxb2, hyb1, hyb2, ?_⟩
  have hbase : imageGetitem im (.tuple [.slice xS xT, .slice yS yT]) =
      mathGet im dom yS yT xS xT := by
    simp only [imageGetitem, flipIndex, hmath, Bool.false_eq_true, if_false, hdom]
    rfl
  rw [hbase, mathGet, hgrids]
  simp only [hxrow, hycol, hx1, hx2, hy1, hy2]

theorem c1_math_snap_delegates_witness :
    imW.domain = some domW ∧
    (∃ sxs sxt sys syt : Option Bnd,
      snapOB [0, 1] (some (.bfloat (mkRat 1 2))) = .ok sxs ∧
      snapOB [0, 1] none = .ok sxt ∧
      snapOB [0, 1] none = .ok sys ∧
      snapOB [0, 1] (some (.bint 1)) = .ok syt ∧
      ((some (.bfloat (mkRat 1 2)) : Option Bnd) = none → sxs = none) ∧
      ((none : Option Bnd) = none → sxt = none) ∧
      ((none : Option Bnd) = none → sys = none) ∧
      ((some (.bint 1) : Option Bnd) = none → syt = none) ∧
      (∀ b, (some (.bfloat (mkRat 1 2)) : Option Bnd) = some b →
        ∃ i : Nat, sxs = some (.bint (i : Int)) ∧ IsNearest [0, 1] (bval b) i) ∧
      (∀ b, (none : Option Bnd) = some b →
        ∃ i : Nat, sxt = some (.bint (i : Int)) ∧ IsNearest [0, 1] (bval b) i) ∧
      (∀ b, (none : Option Bnd) = some b →
        ∃ i : Nat, sys = some (.bint (i : Int)) ∧ IsNearest [0, 1] (bval b) i) ∧
      (∀ b, (some (.bint 1) : Option Bnd) = some b →
        ∃ i : Nat, syt = some (.bint (i : Int)) ∧ IsNearest [0, 1] (bval b) i) ∧
      imageGetitem imW (.tuple [.slice (some (.bfloat (mkRat 1 2))) none,
        .slice none (some (.bint 1))]) =
        pixelGet imW [.slice syt sys, .slice sxs sxt]) :=
  ⟨rfl, c1_math_snap_delegates imW domW (some (.bfloat (mkRat 1 2))) none none
    (some (.bint 1)) [[0, 1], [0, 1]] [[0, 0], [1, 1]] [0, 1] [0, 1]
    rfl rfl rfl rfl (by decide) (by decide) rfl⟩

end Mage
